import Mathlib

/-!
Verification of the in-memory Task Store Service
(`02-language-quickstart/python/src/main.py`).

Shallow embedding conventions:
* The global mutable list `tasks_db` becomes explicit state passing over
  `StoreState`; every handler takes the state and returns its result
  together with the state left behind.
* `datetime.now()` is modelled by passing each clock read as an explicit
  `Nat` argument, one argument per textual call site; `create_task` calls
  it twice, so it receives two reads.
* `uuid4()` is modelled by a fresh-counter supply `nextId` in the state:
  each create consumes the counter and bumps it.  The uniqueness of
  `uuid4` values becomes the strict monotonicity of the counter.
* `raise HTTPException(...)` becomes an `Except.error` result; since the
  handlers raise before any mutation, the state component is returned
  unchanged in the error branches, exactly as the Python leaves the list.
-/

namespace TaskApi

/-- The `Task` pydantic model: id, title, description, completed flag and
the two timestamps. -/
structure Task where
  id : Nat
  title : String
  description : String
  completed : Bool
  created_at : Nat
  updated_at : Nat
deriving DecidableEq

/-- The `TaskCreate` request body: both fields required. -/
structure TaskCreate where
  title : String
  description : String
deriving DecidableEq

/-- The `TaskUpdate` request body: every field optional. -/
structure TaskUpdate where
  title : Option String := none
  description : Option String := none
  completed : Option Bool := none
deriving DecidableEq

/-- `HTTPException(status_code, detail)`. -/
structure HTTPException where
  status_code : Nat
  detail : String
deriving DecidableEq

/-- The mutable state of the process: the list `tasks_db`, plus the
fresh-id supply standing in for `uuid4`. -/
structure StoreState where
  tasks_db : List Task
  nextId : Nat
deriving DecidableEq

/-- The state at startup: `tasks_db: List[Task] = []`. -/
def initialState : StoreState := { tasks_db := [], nextId := 0 }

/-- The 404 error raised by the handlers:
`HTTPException(status_code=404, detail=f"Task with id {task_id} not found")`. -/
def notFoundError (task_id : Nat) : HTTPException :=
  { status_code := 404
    detail := "Task with id " ++ toString task_id ++ " not found" }

/-- The response of `list_tasks`: `{"tasks": tasks_db, "total": len(tasks_db)}`. -/
structure TaskListResponse where
  tasks : List Task
  total : Nat
deriving DecidableEq

/-- The response of `health_check`. -/
structure HealthResponse where
  status : String
  version : String
  timestamp : Nat
  environment : String
  database : String
deriving DecidableEq

/-- `health_check` (GET /health): a fixed-shape payload.  `now` is the
clock read for the timestamp, `env` is `os.getenv("ENV", "production")`.
The handler reads nothing from and writes nothing to `tasks_db`. -/
def health_check (now : Nat) (env : Option String) (s : StoreState) :
    HealthResponse × StoreState :=
  ({ status := "healthy"
     version := "1.0.0"
     timestamp := now
     environment := env.getD "production"
     database := "connected" }, s)

/-- `list_tasks` (GET /api/tasks): returns all tasks and their count. -/
def list_tasks (s : StoreState) : TaskListResponse × StoreState :=
  ({ tasks := s.tasks_db, total := s.tasks_db.length }, s)

/-- `create_task` (POST /api/tasks): builds the new `Task` and appends it.
`now1` and `now2` are the two successive `datetime.now()` reads for
`created_at` and `updated_at` respectively; `id` consumes the fresh
supply (`str(uuid4())` in the source). -/
def create_task (now1 now2 : Nat) (task_data : TaskCreate) (s : StoreState) :
    Task × StoreState :=
  let task : Task :=
    { id := s.nextId
      title := task_data.title
      description := task_data.description
      completed := false
      created_at := now1
      updated_at := now2 }
  (task, { tasks_db := s.tasks_db ++ [task], nextId := s.nextId + 1 })

/-- `get_task` (GET /api/tasks/{task_id}):
`next((t for t in tasks_db if t.id == task_id), None)`, 404 when `None`. -/
def get_task (task_id : Nat) (s : StoreState) :
    Except HTTPException Task × StoreState :=
  match s.tasks_db.find? (fun t => t.id == task_id) with
  | none => (Except.error (notFoundError task_id), s)
  | some task => (Except.ok task, s)

/-- Replace the first element satisfying `p` by `new`: the Python handler
mutates the first matching object in place, which the list then holds. -/
def replaceFirst (p : Task → Bool) (new : Task) : List Task → List Task
  | [] => []
  | t :: rest => if p t then new :: rest else t :: replaceFirst p new rest

/-- `update_task` (PUT /api/tasks/{task_id}): find the task, apply each
supplied field, refresh `updated_at` with the clock read `now`. -/
def update_task (now : Nat) (task_id : Nat) (task_update : TaskUpdate)
    (s : StoreState) : Except HTTPException Task × StoreState :=
  match s.tasks_db.find? (fun t => t.id == task_id) with
  | none => (Except.error (notFoundError task_id), s)
  | some task =>
    let task := match task_update.title with
      | some v => { task with title := v }
      | none => task
    let task := match task_update.description with
      | some v => { task with description := v }
      | none => task
    let task := match task_update.completed with
      | some v => { task with completed := v }
      | none => task
    let task := { task with updated_at := now }
    (Except.ok task,
      { s with tasks_db := replaceFirst (fun t => t.id == task_id) task s.tasks_db })

/-- `delete_task` (DELETE /api/tasks/{task_id}): find the index of the
first match, 404 when absent, otherwise `tasks_db.pop(task_index)`. -/
def delete_task (task_id : Nat) (s : StoreState) :
    Except HTTPException Unit × StoreState :=
  match s.tasks_db.findIdx? (fun t => t.id == task_id) with
  | none => (Except.error (notFoundError task_id), s)
  | some task_index =>
    (Except.ok (), { s with tasks_db := s.tasks_db.eraseIdx task_index })

/-- The text block returned by `metrics`, as a function of the three
reported numbers. -/
def metricsText (total completed pending : Nat) : String :=
  "# HELP tasks_total Total number of tasks\n" ++
  "# TYPE tasks_total counter\n" ++
  "tasks_total " ++ toString total ++ "\n\n" ++
  "# HELP tasks_completed Number of completed tasks\n" ++
  "# TYPE tasks_completed gauge\n" ++
  "tasks_completed " ++ toString completed ++ "\n\n" ++
  "# HELP tasks_pending Number of pending tasks\n" ++
  "# TYPE tasks_pending gauge\n" ++
  "tasks_pending " ++ toString pending ++ "\n"

/-- `metrics` (GET /metrics): counts completed and pending tasks by two
list comprehensions over the current `tasks_db` and interpolates them
into the exposition text. -/
def metrics (s : StoreState) : String × StoreState :=
  let completed_tasks := (s.tasks_db.filter (fun t => t.completed)).length
  let pending_tasks := (s.tasks_db.filter (fun t => !t.completed)).length
  (metricsText s.tasks_db.length completed_tasks pending_tasks, s)

/-! ### Helper lemmas about the list operations -/

theorem replaceFirst_length (p : Task → Bool) (new : Task) (l : List Task) :
    (replaceFirst p new l).length = l.length := by
  induction l with
  | nil => rfl
  | cons x xs ih => by_cases h : p x <;> simp [replaceFirst, h, ih]

theorem mem_replaceFirst {p : Task → Bool} {new x : Task} {l : List Task}
    (h : x ∈ replaceFirst p new l) : x = new ∨ x ∈ l := by
  induction l with
  | nil => simp [replaceFirst] at h
  | cons y ys ih =>
    by_cases hy : p y
    · simp only [replaceFirst, hy, if_pos, List.mem_cons] at h
      rcases h with h | h
      · exact Or.inl h
      · exact Or.inr (List.mem_cons_of_mem _ h)
    · simp only [replaceFirst, hy, if_neg, Bool.false_eq_true, not_false_iff,
        List.mem_cons] at h
      rcases h with h | h
      · exact Or.inr (by simp [h])
      · rcases ih h with h' | h'
        · exact Or.inl h'
        · exact Or.inr (List.mem_cons_of_mem _ h')

theorem mem_replaceFirst_of_mem {p : Task → Bool} {new x : Task} {l : List Task}
    (hx : x ∈ l) (hpx : p x = false) : x ∈ replaceFirst p new l := by
  induction l with
  | nil => simp at hx
  | cons y ys ih =>
    rcases List.mem_cons.mp hx with h | h
    · subst h
      simp [replaceFirst, hpx]
    · by_cases hy : p y
      · simp [replaceFirst, hy, List.mem_cons_of_mem _ h]
      · simp [replaceFirst, hy, List.mem_cons, ih h]

theorem map_id_replaceFirst {p : Task → Bool} {new : Task} {l : List Task}
    (h : ∀ x, p x = true → new.id = x.id) :
    (replaceFirst p new l).map Task.id = l.map Task.id := by
  induction l with
  | nil => rfl
  | cons y ys ih =>
    by_cases hy : p y
    · simp [replaceFirst, hy, h y hy]
    · simp [replaceFirst, hy, ih]

theorem find?_some_of_mem {task_id : Nat} {l : List Task} {t : Task}
    (ht : t ∈ l) (hid : t.id = task_id) :
    ∃ t', l.find? (fun x => x.id == task_id) = some t' := by
  rcases h : l.find? (fun x => x.id == task_id) with _ | t'
  · rw [List.find?_eq_none] at h
    have := h t ht
    simp [hid] at this
  · exact ⟨t', h⟩

theorem findIdx?_some_of_mem {task_id : Nat} {l : List Task} {t : Task}
    (ht : t ∈ l) (hid : t.id = task_id) :
    ∃ i, l.findIdx? (fun x => x.id == task_id) = some i := by
  rcases h : l.findIdx? (fun x => x.id == task_id) with _ | i
  · rw [List.findIdx?_eq_none_iff] at h
    have := h t ht
    simp [hid] at this
  · exact ⟨i, h⟩

theorem findIdx?_lt_length {p : Task → Bool} {l : List Task} {i : Nat}
    (h : l.findIdx? p = some i) : i < l.length := by
  induction l generalizing i with
  | nil => simp [List.findIdx?_nil] at h
  | cons x xs ih =>
    rw [List.findIdx?_cons] at h
    by_cases hx : p x
    · simp only [hx, if_pos] at h
      simp only [Option.some.injEq] at h
      subst h
      simp
    · simp only [hx, Bool.false_eq_true, if_neg, not_false_iff,
        List.findIdx?_succ] at h
      rcases hmap : xs.findIdx? p with _ | j
      · rw [hmap] at h
        simp at h
      · rw [hmap] at h
        simp only [Option.map_some', Option.some.injEq] at h
        subst h
        have := ih hmap
        simp only [List.length_cons]
        omega

theorem find?_eraseIdx_eq_none {task_id : Nat} {l : List Task} {i : Nat}
    (hnd : (l.map Task.id).Nodup)
    (hfind : l.findIdx? (fun t => t.id == task_id) = some i) :
    (l.eraseIdx i).find? (fun t => t.id == task_id) = none := by
  induction l generalizing i with
  | nil => simp [List.findIdx?_nil] at hfind
  | cons x xs ih =>
    rw [List.findIdx?_cons] at hfind
    simp only [List.map_cons, List.nodup_cons] at hnd
    by_cases hx : (x.id == task_id)
    · simp only [hx, if_pos, Option.some.injEq] at hfind
      subst hfind
      rw [List.eraseIdx_cons_zero, List.find?_eq_none]
      intro y hy
      have hxid : x.id = task_id := by simpa using hx
      intro hyid
      have hyid' : y.id = task_id := by simpa using hyid
      have hmem : x.id ∈ List.map Task.id xs := by
        rw [hxid, ← hyid']
        exact List.mem_map_of_mem Task.id hy
      exact hnd.1 hmem
    · simp only [hx, Bool.false_eq_true, if_neg, not_false_iff,
        List.findIdx?_succ] at hfind
      rcases hmap : xs.findIdx? (fun t => t.id == task_id) with _ | j
      · rw [hmap] at hfind
        simp at hfind
      · rw [hmap] at hfind
        simp only [Option.map_some', Option.some.injEq] at hfind
        subst hfind
        rw [List.eraseIdx_cons_succ, List.find?_cons]
        have hx' : (x.id == task_id) = false := by simpa using hx
        rw [hx']
        exact ih hnd.2 hmap

/-! ### Canonical forms of the handlers -/

/-- The task produced by a successful update: supplied fields applied,
unsupplied fields kept, `updated_at` refreshed. -/
def appliedTask (t : Task) (u : TaskUpdate) (now : Nat) : Task :=
  { id := t.id
    title := u.title.getD t.title
    description := u.description.getD t.description
    completed := u.completed.getD t.completed
    created_at := t.created_at
    updated_at := now }

theorem update_task_eq {s : StoreState} {task_id : Nat} {t : Task}
    (now : Nat) (u : TaskUpdate)
    (hfind : s.tasks_db.find? (fun x => x.id == task_id) = some t) :
    update_task now task_id u s =
      (Except.ok (appliedTask t u now),
       StoreState.mk
         (replaceFirst (fun x => x.id == task_id) (appliedTask t u now)
           s.tasks_db)
         s.nextId) := by
  obtain ⟨ot, od, oc⟩ := u
  unfold update_task
  rw [hfind]
  cases ot <;> cases od <;> cases oc <;> rfl

theorem get_task_snd (task_id : Nat) (s : StoreState) :
    (get_task task_id s).2 = s := by
  unfold get_task
  cases s.tasks_db.find? (fun t => t.id == task_id) <;> rfl

theorem update_task_snd_of_none {s : StoreState} {task_id : Nat}
    (now : Nat) (u : TaskUpdate)
    (hfind : s.tasks_db.find? (fun x => x.id == task_id) = none) :
    update_task now task_id u s = (Except.error (notFoundError task_id), s) := by
  unfold update_task
  rw [hfind]

theorem delete_task_eq_of_none {s : StoreState} {task_id : Nat}
    (hfind : s.tasks_db.findIdx? (fun x => x.id == task_id) = none) :
    delete_task task_id s = (Except.error (notFoundError task_id), s) := by
  unfold delete_task
  rw [hfind]

theorem delete_task_eq_of_some {s : StoreState} {task_id : Nat} {i : Nat}
    (hfind : s.tasks_db.findIdx? (fun x => x.id == task_id) = some i) :
    delete_task task_id s =
      (Except.ok (), { s with tasks_db := s.tasks_db.eraseIdx i }) := by
  unfold delete_task
  rw [hfind]

/-! ### Admissible executions and the store invariant

One step per request.  The `Nat` component is a lower bound on every
clock value the process will read from now on; requiring the reads of
each step to lie above it is exactly the monotone-clock assumption. -/

/-- One request against the store.  Read-only and failing requests are
steps too; the clock bound advances with each read. -/
inductive Step : Nat × StoreState → Nat × StoreState → Prop
  | create (c n1 n2 : Nat) (td : TaskCreate) (s : StoreState)
      (h1 : c ≤ n1) (h2 : n1 ≤ n2) :
      Step (c, s) (n2, (create_task n1 n2 td s).2)
  | update (c now task_id : Nat) (u : TaskUpdate) (s : StoreState)
      (h1 : c ≤ now) :
      Step (c, s) (now, (update_task now task_id u s).2)
  | delete (c task_id : Nat) (s : StoreState) :
      Step (c, s) (c, (delete_task task_id s).2)
  | getStep (c task_id : Nat) (s : StoreState) :
      Step (c, s) (c, (get_task task_id s).2)
  | listStep (c : Nat) (s : StoreState) :
      Step (c, s) (c, (list_tasks s).2)
  | metricsStep (c : Nat) (s : StoreState) :
      Step (c, s) (c, (metrics s).2)
  | healthStep (c now : Nat) (env : Option String) (s : StoreState)
      (h1 : c ≤ now) :
      Step (c, s) (now, (health_check now env s).2)

/-- Any finite sequence of requests. -/
def Steps : Nat × StoreState → Nat × StoreState → Prop :=
  Relation.ReflTransGen Step

/-- States the process can be in, starting from the empty store. -/
def Reachable (p : Nat × StoreState) : Prop :=
  Steps (0, initialState) p

/-- The store invariant: timestamps are ordered and below the clock
bound, ids are below the fresh supply and pairwise distinct. -/
def Inv (c : Nat) (s : StoreState) : Prop :=
  (∀ t ∈ s.tasks_db,
    t.created_at ≤ t.updated_at ∧ t.updated_at ≤ c ∧ t.id < s.nextId) ∧
  (s.tasks_db.map Task.id).Nodup

theorem Inv_mono {c c' : Nat} {s : StoreState} (hcc : c ≤ c') (h : Inv c s) :
    Inv c' s := by
  refine ⟨fun t ht => ?_, h.2⟩
  obtain ⟨h1, h2, h3⟩ := h.1 t ht
  exact ⟨h1, le_trans h2 hcc, h3⟩

theorem Inv_initial : Inv 0 initialState := by
  constructor
  · intro t ht
    simp [initialState] at ht
  · simp [initialState]

theorem Step.clock_mono {p q : Nat × StoreState} (h : Step p q) :
    p.1 ≤ q.1 := by
  cases h with
  | create c n1 n2 td s h1 h2 => exact le_trans h1 h2
  | update c now task_id u s h1 => exact h1
  | delete c task_id s => exact le_refl c
  | getStep c task_id s => exact le_refl c
  | listStep c s => exact le_refl c
  | metricsStep c s => exact le_refl c
  | healthStep c now env s h1 => exact h1

theorem Step.nextId_mono {p q : Nat × StoreState} (h : Step p q) :
    p.2.nextId ≤ q.2.nextId := by
  cases h with
  | create c n1 n2 td s h1 h2 => simp [create_task]
  | update c now task_id u s h1 =>
    rcases hfind : s.tasks_db.find? (fun x => x.id == task_id) with _ | t
    · rw [update_task_snd_of_none now u hfind]
    · rw [update_task_eq now u hfind]
  | delete c task_id s =>
    rcases hfind : s.tasks_db.findIdx? (fun x => x.id == task_id) with _ | i
    · rw [delete_task_eq_of_none hfind]
    · rw [delete_task_eq_of_some hfind]
  | getStep c task_id s => rw [get_task_snd]
  | listStep c s => exact le_refl _
  | metricsStep c s => exact le_refl _
  | healthStep c now env s h1 => exact le_refl _

theorem Step.preserves_Inv {p q : Nat × StoreState} (h : Step p q)
    (hinv : Inv p.1 p.2) : Inv q.1 q.2 := by
  cases h with
  | create c n1 n2 td s h1 h2 =>
    dsimp only at hinv ⊢
    obtain ⟨hbound, hnd⟩ := hinv
    constructor
    · intro t ht
      simp only [create_task, List.mem_append, List.mem_singleton] at ht
      rcases ht with ht | ht
      · obtain ⟨ha, hb, hc⟩ := hbound t ht
        exact ⟨ha, le_trans hb (le_trans h1 h2), Nat.lt_succ_of_lt hc⟩
      · subst ht
        exact ⟨h2, le_refl n2, Nat.lt_succ_self _⟩
    · simp only [create_task, List.map_append, List.map_cons, List.map_nil]
      rw [List.nodup_append]
      refine ⟨hnd, List.nodup_singleton _, ?_⟩
      intro a ha hb
      simp only [List.mem_singleton] at hb
      subst hb
      obtain ⟨t, ht, hta⟩ := List.mem_map.mp ha
      have := (hbound t ht).2.2
      omega
  | update c now task_id u s h1 =>
    dsimp only at hinv ⊢
    rcases hfind : s.tasks_db.find? (fun x => x.id == task_id) with _ | t
    · rw [update_task_snd_of_none now u hfind]
      exact Inv_mono h1 hinv
    · rw [update_task_eq now u hfind]
      obtain ⟨hbound, hnd⟩ := hinv
      have htmem : t ∈ s.tasks_db := List.mem_of_find?_eq_some hfind
      have htid : (t.id == task_id) = true := by
        have hps := List.find?_some hfind
        simpa using hps
      obtain ⟨ht1, ht2, ht3⟩ := hbound t htmem
      constructor
      · intro x hx
        rcases mem_replaceFirst hx with hx' | hx'
        · subst hx'
          refine ⟨le_trans ht1 (le_trans ht2 h1), le_refl now, ht3⟩
        · obtain ⟨ha, hb, hc⟩ := hbound x hx'
          exact ⟨ha, le_trans hb h1, hc⟩
      · have : (appliedTask t u now).id = t.id := rfl
        rw [map_id_replaceFirst]
        · exact hnd
        · intro x hpx
          have hx : x.id = task_id := by simpa using hpx
          have ht' : t.id = task_id := by simpa using htid
          simp [appliedTask, ht', hx]
  | delete c task_id s =>
    dsimp only at hinv ⊢
    rcases hfind : s.tasks_db.findIdx? (fun x => x.id == task_id) with _ | i
    · rw [delete_task_eq_of_none hfind]
      exact hinv
    · rw [delete_task_eq_of_some hfind]
      obtain ⟨hbound, hnd⟩ := hinv
      have hsub : (s.tasks_db.eraseIdx i).Sublist s.tasks_db :=
        List.eraseIdx_sublist s.tasks_db i
      constructor
      · intro t ht
        exact hbound t (hsub.subset ht)
      · exact List.Nodup.sublist (hsub.map Task.id) hnd
  | getStep c task_id s =>
    rw [get_task_snd]
    exact hinv
  | listStep c s => exact hinv
  | metricsStep c s => exact hinv
  | healthStep c now env s h1 => exact Inv_mono h1 hinv

theorem steps_nextId_mono {p q : Nat × StoreState} (h : Steps p q) :
    p.2.nextId ≤ q.2.nextId := by
  induction h with
  | refl => exact le_refl _
  | tail _ hstep ih => exact le_trans ih hstep.nextId_mono

theorem steps_preserves_Inv {p q : Nat × StoreState} (h : Steps p q)
    (hinv : Inv p.1 p.2) : Inv q.1 q.2 := by
  induction h with
  | refl => exact hinv
  | tail _ hstep ih => exact Step.preserves_Inv hstep ih

theorem reachable_Inv {p : Nat × StoreState} (h : Reachable p) :
    Inv p.1 p.2 :=
  steps_preserves_Inv h Inv_initial

theorem get_task_eq_of_none {s : StoreState} {task_id : Nat}
    (hfind : s.tasks_db.find? (fun x => x.id == task_id) = none) :
    get_task task_id s = (Except.error (notFoundError task_id), s) := by
  unfold get_task
  rw [hfind]

theorem get_task_eq_of_some {s : StoreState} {task_id : Nat} {t : Task}
    (hfind : s.tasks_db.find? (fun x => x.id == task_id) = some t) :
    get_task task_id s = (Except.ok t, s) := by
  unfold get_task
  rw [hfind]

theorem delete_task_ok_length {s s₂ : StoreState} {task_id : Nat}
    (hok : delete_task task_id s = (Except.ok (), s₂)) :
    s₂.tasks_db.length + 1 = s.tasks_db.length := by
  rcases hfind : s.tasks_db.findIdx? (fun x => x.id == task_id) with _ | i
  · rw [delete_task_eq_of_none hfind] at hok
    exact absurd (congrArg Prod.fst hok) (by simp)
  · rw [delete_task_eq_of_some hfind] at hok
    have h2 := congrArg Prod.snd hok
    dsimp at h2
    have hi := findIdx?_lt_length hfind
    rw [← h2]
    dsimp
    rw [List.length_eraseIdx]
    simp only [hi, if_pos]
    omega

theorem delete_task_error_state {s s₂ : StoreState} {task_id : Nat}
    {e : HTTPException}
    (hfail : delete_task task_id s = (Except.error e, s₂)) : s₂ = s := by
  rcases hfind : s.tasks_db.findIdx? (fun x => x.id == task_id) with _ | i
  · rw [delete_task_eq_of_none hfind] at hfail
    exact (congrArg Prod.snd hfail).symm
  · rw [delete_task_eq_of_some hfind] at hfail
    exact absurd (congrArg Prod.fst hfail) (by simp)

theorem length_filter_partition (l : List Task) :
    (l.filter (fun t => t.completed)).length +
      (l.filter (fun t => !t.completed)).length = l.length := by
  induction l with
  | nil => rfl
  | cons x xs ih =>
    by_cases hx : x.completed <;>
      simp only [List.filter_cons, hx, Bool.not_true, Bool.not_false,
        if_pos, if_neg, Bool.false_eq_true, not_false_iff,
        List.length_cons] <;>
      omega

/-- Traces of requests from a start state that perform exactly `n`
(always successful) creates and `m` successful deletes, with any number
of other requests in between. -/
inductive RunOps : StoreState → Nat → Nat → StoreState → Prop
  | refl (s : StoreState) : RunOps s 0 0 s
  | create (n m n1 n2 : Nat) (td : TaskCreate) (s s₁ : StoreState)
      (h : RunOps s n m s₁) :
      RunOps s (n + 1) m (create_task n1 n2 td s₁).2
  | update (n m now task_id : Nat) (u : TaskUpdate) (s s₁ : StoreState)
      (h : RunOps s n m s₁) :
      RunOps s n m (update_task now task_id u s₁).2
  | getOp (n m task_id : Nat) (s s₁ : StoreState) (h : RunOps s n m s₁) :
      RunOps s n m (get_task task_id s₁).2
  | listOp (n m : Nat) (s s₁ : StoreState) (h : RunOps s n m s₁) :
      RunOps s n m (list_tasks s₁).2
  | metricsOp (n m : Nat) (s s₁ : StoreState) (h : RunOps s n m s₁) :
      RunOps s n m (metrics s₁).2
  | healthOp (n m now : Nat) (env : Option String) (s s₁ : StoreState)
      (h : RunOps s n m s₁) :
      RunOps s n m (health_check now env s₁).2
  | deleteOk (n m task_id : Nat) (s s₁ s₂ : StoreState)
      (h : RunOps s n m s₁)
      (hok : delete_task task_id s₁ = (Except.ok (), s₂)) :
      RunOps s n (m + 1) s₂
  | deleteFail (n m task_id : Nat) (e : HTTPException) (s s₁ s₂ : StoreState)
      (h : RunOps s n m s₁)
      (hfail : delete_task task_id s₁ = (Except.error e, s₂)) :
      RunOps s n m s₂

theorem RunOps.length_eq {s s' : StoreState} {n m : Nat}
    (h : RunOps s n m s') :
    s'.tasks_db.length + m = s.tasks_db.length + n := by
  induction h with
  | refl s => rfl
  | create n m n1 n2 td s s₁ h ih =>
    simp only [create_task, List.length_append, List.length_cons,
      List.length_nil]
    omega
  | update n m now task_id u s s₁ h ih =>
    rcases hfind : s₁.tasks_db.find? (fun x => x.id == task_id) with _ | t
    · rw [update_task_snd_of_none now u hfind]
      exact ih
    · rw [update_task_eq now u hfind]
      dsimp
      rw [replaceFirst_length]
      exact ih
  | getOp n m task_id s s₁ h ih =>
    rw [get_task_snd]
    exact ih
  | listOp n m s s₁ h ih => exact ih
  | metricsOp n m s s₁ h ih => exact ih
  | healthOp n m now env s s₁ h ih => exact ih
  | deleteOk n m task_id s s₁ s₂ h hok ih =>
    have := delete_task_ok_length hok
    omega
  | deleteFail n m task_id e s s₁ s₂ h hfail ih =>
    rw [delete_task_error_state hfail]
    exact ih

/-! ### Claims -/

/-- C1 counterexample: `create_task` reads the clock once for
`created_at` and again for `updated_at`; with reads 0 then 1 the two
timestamps of the created task differ, so the claimed equality
`created_at = updated_at` does not hold for every execution. -/
theorem create_task_created_eq_updated_cex :
    (create_task 0 1 { title := "Buy milk", description := "2%" }
        initialState).1.created_at ≠
      (create_task 0 1 { title := "Buy milk", description := "2%" }
        initialState).1.updated_at := by
  decide

/-- C1 (amended): for every title and description, create returns a task
with exactly those values, `completed = false`, `created_at` and
`updated_at` taken from the two successive clock reads — hence
`created_at ≤ updated_at`, with equality exactly when the reads
coincide — and the returned task is the one appended to the store. -/
theorem create_task_spec (n1 n2 : Nat) (td : TaskCreate) (s : StoreState)
    (hclock : n1 ≤ n2) :
    (create_task n1 n2 td s).1.title = td.title ∧
    (create_task n1 n2 td s).1.description = td.description ∧
    (create_task n1 n2 td s).1.completed = false ∧
    (create_task n1 n2 td s).1.created_at = n1 ∧
    (create_task n1 n2 td s).1.updated_at = n2 ∧
    (create_task n1 n2 td s).1.created_at ≤
      (create_task n1 n2 td s).1.updated_at ∧
    (create_task n1 n2 td s).2.tasks_db =
      s.tasks_db ++ [(create_task n1 n2 td s).1] :=
  ⟨rfl, rfl, rfl, rfl, rfl, hclock, rfl⟩

/-- Witness for C1 (amended) at concrete clock reads 3, 3. -/
theorem create_task_spec_witness :
    (create_task 3 3 { title := "Buy milk", description := "2%" }
        initialState).1.title = "Buy milk" ∧
    (create_task 3 3 { title := "Buy milk", description := "2%" }
        initialState).1.description = "2%" ∧
    (create_task 3 3 { title := "Buy milk", description := "2%" }
        initialState).1.completed = false ∧
    (create_task 3 3 { title := "Buy milk", description := "2%" }
        initialState).1.created_at = 3 ∧
    (create_task 3 3 { title := "Buy milk", description := "2%" }
        initialState).1.updated_at = 3 ∧
    (create_task 3 3 { title := "Buy milk", description := "2%" }
        initialState).1.created_at ≤
      (create_task 3 3 { title := "Buy milk", description := "2%" }
        initialState).1.updated_at ∧
    (create_task 3 3 { title := "Buy milk", description := "2%" }
        initialState).2.tasks_db =
      initialState.tasks_db ++
        [(create_task 3 3 { title := "Buy milk", description := "2%" }
          initialState).1] :=
  create_task_spec 3 3 { title := "Buy milk", description := "2%" }
    initialState (le_refl 3)

/-- C3: get returns a stored task whose id is the requested one exactly
when such a task exists, and otherwise fails with the 404 error whose
message names the id. -/
theorem get_task_spec (task_id : Nat) (s : StoreState) :
    (∀ t, (get_task task_id s).1 = Except.ok t →
      t ∈ s.tasks_db ∧ t.id = task_id) ∧
    ((∃ t ∈ s.tasks_db, t.id = task_id) →
      ∃ t, (get_task task_id s).1 = Except.ok t) ∧
    ((get_task task_id s).1 = Except.error (notFoundError task_id) ↔
      ¬ ∃ t ∈ s.tasks_db, t.id = task_id) ∧
    (notFoundError task_id).status_code = 404 ∧
    (notFoundError task_id).detail =
      "Task with id " ++ toString task_id ++ " not found" := by
  refine ⟨?_, ?_, ?_, rfl, rfl⟩
  · intro t h
    rcases hfind : s.tasks_db.find? (fun x => x.id == task_id) with _ | t₀
    · rw [get_task_eq_of_none hfind] at h
      simp at h
    · rw [get_task_eq_of_some hfind] at h
      simp only [Except.ok.injEq] at h
      subst h
      refine ⟨List.mem_of_find?_eq_some hfind, ?_⟩
      have := List.find?_some hfind
      simpa using this
  · rintro ⟨t, ht, hid⟩
    obtain ⟨t', hfind⟩ := find?_some_of_mem ht hid
    exact ⟨t', by rw [get_task_eq_of_some hfind]⟩
  · constructor
    · rintro h ⟨t, ht, hid⟩
      obtain ⟨t', hfind⟩ := find?_some_of_mem ht hid
      rw [get_task_eq_of_some hfind] at h
      simp at h
    · intro h
      rcases hfind : s.tasks_db.find? (fun x => x.id == task_id) with _ | t
      · rw [get_task_eq_of_none hfind]
      · exfalso
        refine h ⟨t, List.mem_of_find?_eq_some hfind, ?_⟩
        have := List.find?_some hfind
        simpa using this

/-- Witness for C3: on the empty store, getting id 5 fails with the 404
error naming the id. -/
theorem get_task_spec_witness :
    (get_task 5 initialState).1 = Except.error (notFoundError 5) :=
  (get_task_spec 5 initialState).2.2.1.mpr (by simp [initialState])

/-- C9: an operation that fails leaves the store identical to what it
was: every failure is a 404 raised before any mutation (create cannot
fail inside the handler — missing fields are rejected by the schema
layer before it runs). -/
theorem failed_ops_preserve_state (now task_id : Nat) (u : TaskUpdate)
    (s : StoreState) (e1 e2 e3 : HTTPException) :
    ((get_task task_id s).1 = Except.error e1 → (get_task task_id s).2 = s) ∧
    ((update_task now task_id u s).1 = Except.error e2 →
      (update_task now task_id u s).2 = s) ∧
    ((delete_task task_id s).1 = Except.error e3 →
      (delete_task task_id s).2 = s) := by
  refine ⟨fun _ => get_task_snd task_id s, ?_, ?_⟩
  · intro h
    rcases hfind : s.tasks_db.find? (fun x => x.id == task_id) with _ | t
    · rw [update_task_snd_of_none now u hfind]
    · rw [update_task_eq now u hfind] at h
      simp at h
  · intro h
    rcases hfind : s.tasks_db.findIdx? (fun x => x.id == task_id) with _ | i
    · rw [delete_task_eq_of_none hfind]
    · rw [delete_task_eq_of_some hfind] at h
      simp at h

/-- Witness for C9: updating the absent id 5 on the empty store fails and
leaves the store as it was. -/
theorem failed_ops_preserve_state_witness :
    (update_task 0 5 {} initialState).2 = initialState :=
  (failed_ops_preserve_state 0 5 {} initialState (notFoundError 5)
    (notFoundError 5) (notFoundError 5)).2.1 rfl

/-- C10: the read-only operations — list, get, health and metrics —
return the store exactly as given; no task and no field changes. -/
theorem readonly_ops_preserve_state (now task_id : Nat)
    (env : Option String) (s : StoreState) :
    (list_tasks s).2 = s ∧ (get_task task_id s).2 = s ∧
    (health_check now env s).2 = s ∧ (metrics s).2 = s :=
  ⟨rfl, get_task_snd task_id s, rfl, rfl⟩

/-- C2: updating an existing task applies exactly the supplied fields
(unsupplied fields — including the empty update — are kept via
`Option.getD`), never changes `id` or `created_at`, and sets
`updated_at` to the clock read, which under the monotone clock is ≥ the
previous `updated_at`; only that task changes and the rest of the store
is untouched. -/
theorem update_task_spec (c now task_id : Nat) (u : TaskUpdate)
    (s : StoreState) (t : Task)
    (hreach : Reachable (c, s)) (hclock : c ≤ now)
    (hfind : s.tasks_db.find? (fun x => x.id == task_id) = some t) :
    ∃ t' s', update_task now task_id u s = (Except.ok t', s') ∧
      t'.id = t.id ∧
      t'.created_at = t.created_at ∧
      t'.title = u.title.getD t.title ∧
      t'.description = u.description.getD t.description ∧
      t'.completed = u.completed.getD t.completed ∧
      t'.updated_at = now ∧
      t.updated_at ≤ now ∧
      s'.nextId = s.nextId ∧
      s'.tasks_db = replaceFirst (fun x => x.id == task_id) t' s.tasks_db ∧
      ∀ x ∈ s.tasks_db, x.id ≠ task_id → x ∈ s'.tasks_db := by
  refine ⟨appliedTask t u now, _, update_task_eq now u hfind,
    rfl, rfl, rfl, rfl, rfl, rfl, ?_, rfl, rfl, ?_⟩
  · have hinv := reachable_Inv hreach
    have htmem : t ∈ s.tasks_db := List.mem_of_find?_eq_some hfind
    have hle : t.updated_at ≤ c := (hinv.1 t htmem).2.1
    exact le_trans hle hclock
  · intro x hx hne
    refine mem_replaceFirst_of_mem hx ?_
    simp [hne]

/-- Witness for C2: in the reachable one-task store, updating task 0 with
a new title and `completed = true` at clock 7. -/
theorem update_task_spec_witness :
    ∃ t' s',
      update_task 7 0
          { title := some "c", description := none, completed := some true }
          (create_task 0 0 { title := "a", description := "b" }
            initialState).2 =
        (Except.ok t', s') ∧
      t'.id = 0 ∧
      t'.created_at = 0 ∧
      t'.title = (some "c").getD "a" ∧
      t'.description = (none : Option String).getD "b" ∧
      t'.completed = (some true).getD false ∧
      t'.updated_at = 7 ∧
      (0 : Nat) ≤ 7 ∧
      s'.nextId = (create_task 0 0 { title := "a", description := "b" }
        initialState).2.nextId ∧
      s'.tasks_db = replaceFirst (fun x => x.id == 0) t'
        (create_task 0 0 { title := "a", description := "b" }
          initialState).2.tasks_db ∧
      ∀ x ∈ (create_task 0 0 { title := "a", description := "b" }
          initialState).2.tasks_db, x.id ≠ 0 → x ∈ s'.tasks_db :=
  update_task_spec 0 7 0
    { title := some "c", description := none, completed := some true }
    (create_task 0 0 { title := "a", description := "b" } initialState).2
    { id := 0, title := "a", description := "b", completed := false,
      created_at := 0, updated_at := 0 }
    (Relation.ReflTransGen.single
      (Step.create 0 0 0 { title := "a", description := "b" }
        initialState (le_refl 0) (le_refl 0)))
    (Nat.zero_le 7)
    rfl

/-- C4: deleting an existing id succeeds and removes that task — a
subsequent get of the same id fails with the 404 `NotFound` error — and
deleting an absent id fails with the same error, leaving the store
unchanged. -/
theorem delete_task_spec (c task_id : Nat) (s : StoreState)
    (hreach : Reachable (c, s)) :
    ((∃ t ∈ s.tasks_db, t.id = task_id) →
      ∃ s', delete_task task_id s = (Except.ok (), s') ∧
        (get_task task_id s').1 = Except.error (notFoundError task_id) ∧
        s'.tasks_db.Sublist s.tasks_db) ∧
    ((¬ ∃ t ∈ s.tasks_db, t.id = task_id) →
      delete_task task_id s = (Except.error (notFoundError task_id), s)) := by
  constructor
  · rintro ⟨t, ht, hid⟩
    obtain ⟨i, hfind⟩ := findIdx?_some_of_mem ht hid
    refine ⟨_, delete_task_eq_of_some hfind, ?_, ?_⟩
    · have hnd : (s.tasks_db.map Task.id).Nodup := (reachable_Inv hreach).2
      have hnone := find?_eraseIdx_eq_none hnd hfind
      rw [get_task_eq_of_none hnone]
    · exact List.eraseIdx_sublist s.tasks_db i
  · intro h
    apply delete_task_eq_of_none
    rw [List.findIdx?_eq_none_iff]
    intro x hx
    by_contra hcon
    simp only [Bool.not_eq_false, beq_iff_eq] at hcon
    exact h ⟨x, hx, hcon⟩

/-- Witness for C4: deleting id 0 from the reachable one-task store
succeeds, and the deleted id is then not found. -/
theorem delete_task_spec_witness :
    ∃ s', delete_task 0 (create_task 0 0 { title := "a", description := "b" }
        initialState).2 = (Except.ok (), s') ∧
      (get_task 0 s').1 = Except.error (notFoundError 0) ∧
      s'.tasks_db.Sublist (create_task 0 0
        { title := "a", description := "b" } initialState).2.tasks_db :=
  (delete_task_spec 0 0
    (create_task 0 0 { title := "a", description := "b" } initialState).2
    (Relation.ReflTransGen.single
      (Step.create 0 0 0 { title := "a", description := "b" }
        initialState (le_refl 0) (le_refl 0)))).1
    ⟨{ id := 0, title := "a", description := "b", completed := false,
       created_at := 0, updated_at := 0 }, by decide, rfl⟩

/-- C5: every task of every reachable store state satisfies
`created_at ≤ updated_at`: create establishes it (its two clock reads
are ordered) and update and delete preserve it under the monotone
clock. -/
theorem created_le_updated_invariant (c : Nat) (s : StoreState)
    (hreach : Reachable (c, s)) :
    ∀ t ∈ s.tasks_db, t.created_at ≤ t.updated_at :=
  fun t ht => ((reachable_Inv hreach).1 t ht).1

/-- Witness for C5: the one task of the reachable one-create store has
ordered timestamps. -/
theorem created_le_updated_invariant_witness :
    ({ id := 0, title := "e", description := "f", completed := false,
       created_at := 0, updated_at := 0 } : Task).created_at ≤
      ({ id := 0, title := "e", description := "f", completed := false,
         created_at := 0, updated_at := 0 } : Task).updated_at :=
  created_le_updated_invariant 0
    (create_task 0 0 { title := "e", description := "f" } initialState).2
    (Relation.ReflTransGen.single
      (Step.create 0 0 0 { title := "e", description := "f" }
        initialState (le_refl 0) (le_refl 0)))
    { id := 0, title := "e", description := "f", completed := false,
      created_at := 0, updated_at := 0 }
    (by decide)

/-- C8: in every reachable state the live ids are pairwise distinct, and
an id held by a task in any reachable state — in particular one deleted
along the way — is never assigned again by a later create: the fresh
supply only grows, and each create hands out its current value, strictly
above every id ever stored before. -/
theorem task_id_unique (c c0 c1 n1 n2 : Nat) (s s0 s1 : StoreState)
    (t0 : Task) (td : TaskCreate) :
    (Reachable (c, s) → (s.tasks_db.map Task.id).Nodup) ∧
    (Reachable (c0, s0) → Steps (c0, s0) (c1, s1) → t0 ∈ s0.tasks_db →
      (create_task n1 n2 td s1).1.id ≠ t0.id) := by
  constructor
  · intro h
    exact (reachable_Inv h).2
  · intro h0 hsteps hmem
    have hlt : t0.id < s0.nextId := ((reachable_Inv h0).1 t0 hmem).2.2
    have hmono : s0.nextId ≤ s1.nextId := steps_nextId_mono hsteps
    have hnew : (create_task n1 n2 td s1).1.id = s1.nextId := rfl
    rw [hnew]
    omega

/-- Witness for C8: the id of the task created second differs from the id
of the task created first. -/
theorem task_id_unique_witness :
    (create_task 1 1 { title := "c", description := "d" }
        (create_task 0 0 { title := "a", description := "b" }
          initialState).2).1.id ≠
      ({ id := 0, title := "a", description := "b", completed := false,
         created_at := 0, updated_at := 0 } : Task).id :=
  (task_id_unique 0 0 0 1 1 initialState
    (create_task 0 0 { title := "a", description := "b" } initialState).2
    (create_task 0 0 { title := "a", description := "b" } initialState).2
    { id := 0, title := "a", description := "b", completed := false,
      created_at := 0, updated_at := 0 }
    { title := "c", description := "d" }).2
    (Relation.ReflTransGen.single
      (Step.create 0 0 0 { title := "a", description := "b" }
        initialState (le_refl 0) (le_refl 0)))
    Relation.ReflTransGen.refl
    (by decide)

/-- C6: after any trace from the empty store with `N` creates and `M`
successful deletes, list succeeds and returns all stored tasks together
with `total` equal to their number, which is `N - M` (and `M ≤ N`). -/
theorem list_tasks_spec (N M : Nat) (s : StoreState)
    (hrun : RunOps initialState N M s) :
    (list_tasks s).1.tasks = s.tasks_db ∧
    (list_tasks s).1.total = (list_tasks s).1.tasks.length ∧
    M ≤ N ∧
    (list_tasks s).1.total = N - M ∧
    (list_tasks s).2 = s := by
  have hlen := RunOps.length_eq hrun
  simp only [initialState, List.length_nil, Nat.zero_add] at hlen
  refine ⟨rfl, rfl, by omega, ?_, rfl⟩
  show s.tasks_db.length = N - M
  omega

/-- Witness for C6: one create followed by one successful delete gives
an empty listing with `total = 0 = 1 - 1`. -/
theorem list_tasks_spec_witness :
    (list_tasks { tasks_db := [], nextId := 1 }).1.tasks =
      ({ tasks_db := [], nextId := 1 } : StoreState).tasks_db ∧
    (list_tasks { tasks_db := [], nextId := 1 }).1.total =
      (list_tasks { tasks_db := [], nextId := 1 }).1.tasks.length ∧
    1 ≤ 1 ∧
    (list_tasks { tasks_db := [], nextId := 1 }).1.total = 1 - 1 ∧
    (list_tasks { tasks_db := [], nextId := 1 }).2 =
      { tasks_db := [], nextId := 1 } :=
  list_tasks_spec 1 1 { tasks_db := [], nextId := 1 }
    (RunOps.deleteOk 1 0 0 initialState
      (create_task 0 0 { title := "a", description := "b" } initialState).2
      { tasks_db := [], nextId := 1 }
      (RunOps.create 0 0 0 0 { title := "a", description := "b" }
        initialState initialState (RunOps.refl initialState))
      rfl)

/-- C7: metrics always succeeds, reads nothing but the current store,
and reports `tasks_total` equal to the number of stored tasks,
`tasks_completed` equal to the number of tasks with `completed = true`,
and `tasks_pending` equal to `tasks_total - tasks_completed`. -/
theorem metrics_spec (s : StoreState) :
    (metrics s).1 =
      metricsText s.tasks_db.length
        (s.tasks_db.filter (fun t => t.completed)).length
        (s.tasks_db.filter (fun t => !t.completed)).length ∧
    (s.tasks_db.filter (fun t => t.completed)).length +
        (s.tasks_db.filter (fun t => !t.completed)).length =
      s.tasks_db.length ∧
    (s.tasks_db.filter (fun t => !t.completed)).length =
      s.tasks_db.length - (s.tasks_db.filter (fun t => t.completed)).length ∧
    (metrics s).2 = s := by
  have hpart := length_filter_partition s.tasks_db
  exact ⟨rfl, hpart, by omega, rfl⟩

end TaskApi
